import Mathlib

/-!
Shallow embedding of `glsl.go` (package glsl of francoisgeorgy/shady): an
off-screen GLSL renderer with a fixed ring of 3 pixel-pack buffers (PBOs),
a single-image entry point `Image` and an animation loop `Animate`.

Machine integers of the source (`uint`, `uint64` frame counter,
`time.Duration` nanoseconds) are modelled as `Nat`; the claims under study
never reach an overflow boundary.  The GPU ("draw a full-screen quad with
the current uniform state, producing a framebuffer of RGBA bytes") is an
opaque parameter `render : GLState → List UInt8` of the shader model, so
every theorem below holds for every possible GPU behaviour.
-/

namespace Glsl

/-- Value pushed to a GL uniform location by the setter closures that appear
in `glsl.go`: `gl.Uniform1f` (the `time` closure) and `gl.Uniform2f` (the
`resolution` closure).  The Go code converts through `float32`; we keep the
exact rational the conversion starts from, which is what the claims about
the animation clock compare. -/
inductive GLValue where
  | f1 (x : ℚ)
  | f2 (x y : ℚ)
deriving DecidableEq

/-- The GL per-program uniform state: association list from uniform
location to the last value pushed there. -/
abbrev GLState := List (Int × GLValue)

/-- Overwrite-or-append a binding in the GL uniform state (the semantics of
`gl.Uniform1f` / `gl.Uniform2f` at a location). -/
def setGL : GLState → Int → GLValue → GLState
  | [], loc, v => [(loc, v)]
  | p :: rest, loc, v => if p.1 = loc then (loc, v) :: rest else p :: setGL rest loc v

/-- A uniform setter stored in the `uniformValues` map
(`map[string]func(int32)` in the source).  The two closures the library
itself inserts are distinguished; everything a caller may pass is an
arbitrary state transformer receiving the resolved location
(`Setter.user`).  `timeClock` is the closure `glsl.go:162-164`: it captures
the loop variable `t` by reference, so the value it pushes is the value of
`t` at the moment `drawImage` invokes it, not at the moment the closure was
stored. -/
inductive Setter where
  | timeClock
  | resolutionDefault
  | user (f : Int → GLState → GLState)

/-- The `uniformValues` map, `map[string]func(int32)` in Go, as an
association list keyed by uniform name. -/
abbrev UMap := List (String × Setter)

/-- Go map lookup `m[k]`. -/
def lookupKey : UMap → String → Option Setter
  | [], _ => none
  | p :: rest, k => if p.1 = k then some p.2 else lookupKey rest k

/-- Go map membership test `_, ok := m[k]`. -/
def containsKey (m : UMap) (k : String) : Bool :=
  (lookupKey m k).isSome

/-- Go map assignment `m[k] = v`: overwrite in place if present, insert
otherwise. -/
def setKey : UMap → String → Setter → UMap
  | [], k, v => [(k, v)]
  | p :: rest, k, v => if p.1 = k then (k, v) :: rest else p :: setKey rest k v

/-- The fixed data of one `Shader` value (`glsl.go:23-34`) that the claims
depend on: the surface size `w × h`, the result of
`ListUniforms(sh.program)` as a name → location table, and the opaque GPU
behaviour: the framebuffer contents `gl.DrawArrays` produces from a given
uniform state. -/
structure ShaderModel where
  w : Nat
  h : Nat
  uniforms : List (String × Int)
  render : GLState → List UInt8

/-- Lookup `u, ok := sh.uniforms[name]`, returning the location. -/
def lookupUniform (us : List (String × Int)) (name : String) : Option Int :=
  match us with
  | [] => none
  | p :: rest => if p.1 = name then some p.2 else lookupUniform rest name

/-- Run one stored setter at a resolved location.  `t` is the current value
of `Animate`'s elapsed-time accumulator (nanoseconds) at the instant of the
call — the `timeClock` closure reads it by reference.  `resolutionDefault`
is the closure `glsl.go:141-143` / `158-160`: `gl.Uniform2f(loc, w, h)`.
The pushed `time` value is `float32(t)/float32(time.Second)` in Go; we
record the exact rational `t / 10^9` seconds. -/
def applySetter (w h : Nat) (t : Nat) : Setter → Int → GLState → GLState
  | .timeClock, loc, g => setGL g loc (.f1 ((t : ℚ) / 1000000000))
  | .resolutionDefault, loc, g => setGL g loc (.f2 (w : ℚ) (h : ℚ))
  | .user f, loc, g => f loc g

/-- Mutable GPU-side state touched by the pipeline: the uniform state of
the bound program, the framebuffer contents, and the three PBOs
(`sh.pbos`, allocated with `w*h*4` bytes each in `NewShader`). -/
structure GPUState where
  glUniforms : GLState
  framebuffer : List UInt8
  pbos : List (List UInt8)
deriving DecidableEq

/-- GPU state right after `NewShader`: no uniform pushed yet, framebuffer
and PBO storage allocated (contents unspecified in GL; zeroed here) at
`w*h*4` bytes each. -/
def newGPUState (sh : ShaderModel) : GPUState :=
  { glUniforms := []
    framebuffer := List.replicate (sh.w * sh.h * 4) 0
    pbos := List.replicate 3 (List.replicate (sh.w * sh.h * 4) 0) }

/-- `Shader.drawImage` (`glsl.go:124-134`): invoke every supplied setter
whose name resolves in the program's uniform table (names that do not
resolve are skipped with no error), issue the draw (`gl.DrawArrays`,
producing the new framebuffer from the uniform state), then bind
`pbos[pboIndex]` and start the transfer of the framebuffer into it
(`gl.ReadPixels` with a bound PIXEL_PACK_BUFFER). -/
def drawImage (sh : ShaderModel) (t : Nat) (pboIndex : Nat) (uv : UMap) (g : GPUState) :
    GPUState :=
  let gu := uv.foldl
    (fun st p =>
      match lookupUniform sh.uniforms p.1 with
      | some loc => applySetter sh.w sh.h t p.2 loc st
      | none => st)
    g.glUniforms
  let fb := sh.render gu
  { glUniforms := gu, framebuffer := fb, pbos := g.pbos.set pboIndex fb }

/-- The result of `image.NewRGBA` plus the pixel copy: Go's `image.RGBA`
with `Pix`, `Stride` and the rectangle size (row-major, 4 bytes per pixel,
RGBA byte order). -/
structure RGBAImage where
  width : Nat
  height : Nat
  stride : Nat
  pix : List UInt8
deriving DecidableEq

/-- `image.NewRGBA(image.Rect(0, 0, w, h))`: `Pix` is `4*w*h` zero bytes,
`Stride` is `4*w`. -/
def NewRGBA (w h : Nat) : RGBAImage :=
  { width := w, height := h, stride := 4 * w, pix := List.replicate (4 * w * h) 0 }

/-- `Shader.downloadImage` (`glsl.go:117-122`): allocate a fresh RGBA image
and copy `w*h*4` bytes out of `pbos[pboIndex]` into its `Pix`
(`gl.GetBufferSubData`).  The real buffer always holds exactly `w*h*4`
bytes; padding with the image's zero bytes keeps the copy total at
`w*h*4` even for an arbitrary `render`. -/
def downloadImage (sh : ShaderModel) (pboIndex : Nat) (g : GPUState) : RGBAImage :=
  let img := NewRGBA sh.w sh.h
  let src := g.pbos.getD pboIndex []
  { img with pix := (src ++ img.pix).take (4 * sh.w * sh.h) }

/-- `Shader.Image` (`glsl.go:136-148`): replace a nil map by an empty one,
inject the default `resolution` setter when the caller supplied none, draw
into ring slot 0 (which also issues slot 0's transfer), and immediately
read slot 0 back.  Go maps are reference values, so the second component —
the map as it stands after the call — is the caller's own map when a
non-nil map was passed. -/
def Image (sh : ShaderModel) (uvo : Option UMap) (g : GPUState) :
    RGBAImage × UMap × GPUState :=
  let uv0 := uvo.getD []
  let uv :=
    if containsKey uv0 "resolution" then uv0
    else setKey uv0 "resolution" .resolutionDefault
  let g' := drawImage sh 0 0 uv g
  (downloadImage sh 0 g', uv, g')

/-- One delivery on `Animate`'s output channel, together with ghost
bookkeeping read off the ring at delivery time: the loop iteration that
performed the delivery, the slot read back, the iteration whose draw last
filled that slot, the value of the elapsed-time accumulator `t` (ns) at the
instant that draw invoked the `time` closure, and the number of draw calls
issued up to and including this iteration. -/
structure Deliv where
  frame : Nat
  slot : Nat
  drawFrame : Nat
  drawTimeNs : Nat
  drawCount : Nat
  img : RGBAImage
deriving DecidableEq

/-- Per-slot ghost metadata: for each ring slot, the iteration of the last
draw into it and the accumulator value `t` current during that draw. -/
def metaUpdate (m : Nat → Nat × Nat) (j : Nat) (v : Nat × Nat) : Nat → Nat × Nat :=
  fun x => if x = j then v else m x

/-- The state of `Shader.Animate`'s loop (`glsl.go:150-179`): the
`uniformValues` map (shared with the caller), the elapsed-time accumulator
`t`, the frame counter, the GPU state, and the observable event trace —
draw/transfer requests `(frame, slot, t-at-draw)`, readbacks
`(frame, slot)`, images delivered on the output channel, and whether the
loop has returned.  `slotMeta` is ghost state mirroring the last draw into
each slot. -/
structure AnimState where
  uv : UMap
  t : Nat
  frame : Nat
  gpu : GPUState
  slotMeta : Nat → Nat × Nat
  draws : List (Nat × Nat × Nat)
  reads : List (Nat × Nat)
  delivered : List Deliv
  done : Bool

/-- The per-iteration rewrite of `uniformValues` (`glsl.go:157-164`):
default `resolution` only when absent, then unconditionally overwrite
`time` with the clock closure. -/
def uvTransform (uv : UMap) : UMap :=
  setKey
    (if containsKey uv "resolution" then uv
     else setKey uv "resolution" .resolutionDefault)
    "time" .timeClock

/-- One iteration of `Animate`'s loop body (`glsl.go:156-178`), with the
select outcome at the delivery point supplied by the oracle `c` (`c f =
true` means the `<-cancel` case of the select wins at iteration `f`).  The
body: rewrite the uniform map, advance `t` by one interval — so the `time`
closure, invoked by `drawImage` after the increment, reads the advanced
value — draw into slot `frame mod 3`, and, from `frame = 3` on, read back
slot `(frame-1) mod 3` and race delivery against cancellation. -/
def animateStep (sh : ShaderModel) (i : Nat) (c : Nat → Bool) (s : AnimState) : AnimState :=
  if s.frame < 3 then
    { s with
      uv := uvTransform s.uv
      t := s.t + i
      frame := s.frame + 1
      gpu := drawImage sh (s.t + i) (s.frame % 3) (uvTransform s.uv) s.gpu
      slotMeta := metaUpdate s.slotMeta (s.frame % 3) (s.frame, s.t + i)
      draws := s.draws ++ [(s.frame, s.frame % 3, s.t + i)] }
  else if c s.frame then
    { s with
      uv := uvTransform s.uv
      t := s.t + i
      frame := s.frame + 1
      gpu := drawImage sh (s.t + i) (s.frame % 3) (uvTransform s.uv) s.gpu
      slotMeta := metaUpdate s.slotMeta (s.frame % 3) (s.frame, s.t + i)
      draws := s.draws ++ [(s.frame, s.frame % 3, s.t + i)]
      reads := s.reads ++ [(s.frame, (s.frame - 1) % 3)]
      done := true }
  else
    { s with
      uv := uvTransform s.uv
      t := s.t + i
      frame := s.frame + 1
      gpu := drawImage sh (s.t + i) (s.frame % 3) (uvTransform s.uv) s.gpu
      slotMeta := metaUpdate s.slotMeta (s.frame % 3) (s.frame, s.t + i)
      draws := s.draws ++ [(s.frame, s.frame % 3, s.t + i)]
      reads := s.reads ++ [(s.frame, (s.frame - 1) % 3)]
      delivered := s.delivered ++
        [{ frame := s.frame
           slot := (s.frame - 1) % 3
           drawFrame := (metaUpdate s.slotMeta (s.frame % 3) (s.frame, s.t + i)
             ((s.frame - 1) % 3)).1
           drawTimeNs := (metaUpdate s.slotMeta (s.frame % 3) (s.frame, s.t + i)
             ((s.frame - 1) % 3)).2
           drawCount := s.draws.length + 1
           img := downloadImage sh ((s.frame - 1) % 3)
             (drawImage sh (s.t + i) (s.frame % 3) (uvTransform s.uv) s.gpu) }] }

/-- `Animate`'s state on entry (`glsl.go:150-156`): nil map replaced by an
empty one, `t = 0`, `frame = 0`, empty trace. -/
def animState0 (uvo : Option UMap) (g : GPUState) : AnimState :=
  { uv := uvo.getD []
    t := 0
    frame := 0
    gpu := g
    slotMeta := fun _ => (0, 0)
    draws := []
    reads := []
    delivered := []
    done := false }

/-- Run `Animate` for (at most) `n` loop iterations: once the select takes
the cancel case the loop has returned and the state is frozen. -/
def animateRun (sh : ShaderModel) (i : Nat) (c : Nat → Bool) (uvo : Option UMap)
    (g : GPUState) : Nat → AnimState
  | 0 => animState0 uvo g
  | n + 1 =>
    let s := animateRun sh i c uvo g n
    if s.done then s else animateStep sh i c s

/-! Association-list lemmas for the Go-map operations. -/

theorem lookupKey_setKey_self (m : UMap) (k : String) (v : Setter) :
    lookupKey (setKey m k v) k = some v := by
  induction m with
  | nil => simp [setKey, lookupKey]
  | cons p rest ih =>
    by_cases h : p.1 = k
    · simp [setKey, lookupKey, h]
    · simp [setKey, lookupKey, h, ih]

theorem lookupKey_setKey_ne (m : UMap) (k k' : String) (v : Setter) (h : k' ≠ k) :
    lookupKey (setKey m k v) k' = lookupKey m k' := by
  have hk : ¬k = k' := fun hh => h hh.symm
  induction m with
  | nil => simp [setKey, lookupKey, hk]
  | cons p rest ih =>
    by_cases hp : p.1 = k
    · simp [setKey, lookupKey, hp, hk]
    · simp [setKey, lookupKey, hp, ih]

theorem containsKey_setKey_self (m : UMap) (k : String) (v : Setter) :
    containsKey (setKey m k v) k = true := by
  simp [containsKey, lookupKey_setKey_self]

theorem containsKey_setKey_ne (m : UMap) (k k' : String) (v : Setter) (h : k' ≠ k) :
    containsKey (setKey m k v) k' = containsKey m k' := by
  simp [containsKey, lookupKey_setKey_ne m k k' v h]

/-! List-indexing helpers for the PBO ring. -/

theorem getD_set_self {α : Type} (l : List α) (j : Nat) (x d : α) (h : j < l.length) :
    (l.set j x).getD j d = x := by
  simp [List.getD_eq_getElem?_getD, List.getElem?_set_eq_of_lt _ h]

theorem getD_set_ne {α : Type} (l : List α) (j j' : Nat) (x d : α) (h : j ≠ j') :
    (l.set j x).getD j' d = l.getD j' d := by
  simp [List.getD_eq_getElem?_getD, List.getElem?_set_ne h]

/-- The draws issued strictly after iteration `f - 1` and no later than
iteration `f` form the singleton `[f]`, inside any range extending past
`f`. -/
theorem range_filter_between (m f : Nat) (h1 : 1 ≤ f) (h2 : f < m) :
    (List.range m).filter (fun g => decide (f - 1 < g) && decide (g ≤ f)) = [f] := by
  induction m with
  | zero => omega
  | succ m ih =>
    rw [List.range_succ, List.filter_append]
    by_cases hm : f = m
    · subst hm
      have hnil : (List.range f).filter (fun g => decide (f - 1 < g) && decide (g ≤ f)) = [] := by
        rw [List.filter_eq_nil_iff]
        intro a ha
        rw [List.mem_range] at ha
        simp only [Bool.and_eq_true, decide_eq_true_eq, not_and]
        omega
      rw [hnil]
      have htrue : f - 1 < f := by omega
      simp [List.filter_cons, htrue]
    · have hf : f < m := by omega
      rw [ih hf]
      have hm2 : ¬m ≤ f := by omega
      simp [List.filter_cons, hm2]

/-- Shape facts about `downloadImage`: the returned image always has the
configured dimensions, stride `4*w`, and a pixel buffer of exactly
`4*w*h` bytes. -/
theorem downloadImage_shape (sh : ShaderModel) (idx : Nat) (g : GPUState) :
    (downloadImage sh idx g).width = sh.w ∧ (downloadImage sh idx g).height = sh.h ∧
    (downloadImage sh idx g).stride = 4 * sh.w ∧
    (downloadImage sh idx g).pix.length = 4 * sh.w * sh.h := by
  refine ⟨rfl, rfl, rfl, ?_⟩
  simp [downloadImage, NewRGBA, List.length_take]

/-- In every branch, one animation-loop iteration replaces the uniform map
by `uvTransform` of the old one. -/
theorem animateStep_uv (sh : ShaderModel) (i : Nat) (c : Nat → Bool) (s : AnimState) :
    (animateStep sh i c s).uv = uvTransform s.uv := by
  by_cases h1 : s.frame < 3 <;> by_cases h2 : c s.frame <;> simp [animateStep, h1, h2]

/-- One iteration always advances the frame counter by one. -/
theorem animateStep_frame (sh : ShaderModel) (i : Nat) (c : Nat → Bool) (s : AnimState) :
    (animateStep sh i c s).frame = s.frame + 1 := by
  by_cases h1 : s.frame < 3 <;> by_cases h2 : c s.frame <;> simp [animateStep, h1, h2]

/-- During a priming iteration (frame < 3) no delivery point is reached:
the delivery trace is untouched and the loop cannot return, whatever the
select schedule says. -/
theorem animateStep_delivered_of_prime (sh : ShaderModel) (i : Nat) (c : Nat → Bool)
    (s : AnimState) (h1 : s.frame < 3) :
    (animateStep sh i c s).delivered = s.delivered ∧
    (animateStep sh i c s).done = s.done := by
  constructor <;> simp [animateStep, h1]

/-- When the cancel case wins the select, the pending image is dropped
(the delivery trace is untouched) and the loop returns. -/
theorem animateStep_delivered_of_cancel (sh : ShaderModel) (i : Nat) (c : Nat → Bool)
    (s : AnimState) (h1 : ¬s.frame < 3) (h2 : c s.frame = true) :
    (animateStep sh i c s).delivered = s.delivered ∧
    (animateStep sh i c s).done = true := by
  constructor <;> simp [animateStep, h1, h2]

/-- After `uvTransform`, `time` is bound to the clock closure and a
`resolution` binding exists. -/
theorem uvTransform_keys (uv : UMap) :
    lookupKey (uvTransform uv) "time" = some Setter.timeClock ∧
    containsKey (uvTransform uv) "resolution" = true := by
  constructor
  · exact lookupKey_setKey_self _ "time" _
  · rw [uvTransform, containsKey_setKey_ne _ "time" "resolution" _ (by decide)]
    by_cases h : containsKey uv "resolution"
    · simp [h]
    · simp only [h, Bool.false_eq_true, if_false]
      exact containsKey_setKey_self uv "resolution" _

/-- `uvTransform` keeps a caller-supplied `resolution` binding untouched
and injects the default exactly when none is present. -/
theorem uvTransform_resolution (uv : UMap) :
    lookupKey (uvTransform uv) "resolution" =
      (if containsKey uv "resolution" then lookupKey uv "resolution"
       else some Setter.resolutionDefault) := by
  rw [uvTransform, lookupKey_setKey_ne _ "time" "resolution" _ (by decide)]
  by_cases h : containsKey uv "resolution"
  · simp [h]
  · simp only [h, Bool.false_eq_true, if_false]
    exact lookupKey_setKey_self uv "resolution" _

/-- The inductive invariant of the animation loop: the whole event trace is
determined by the frame counter (and, for deliveries, by which select
outcomes the oracle produced), exactly as the loop body computes it. -/
structure AnimInv (sh : ShaderModel) (i : Nat) (s : AnimState) : Prop where
  draws_eq : s.draws = (List.range s.frame).map (fun f => (f, f % 3, (f + 1) * i))
  reads_eq : s.reads =
    ((List.range s.frame).filter (fun f => decide (3 ≤ f))).map (fun f => (f, (f - 1) % 3))
  t_eq : s.t = s.frame * i
  meta_eq : 1 ≤ s.frame → s.slotMeta ((s.frame - 1) % 3) = (s.frame - 1, s.frame * i)
  deliv_eq : s.delivered.map (fun d => (d.frame, d.slot, d.drawFrame, d.drawTimeNs, d.drawCount))
    = (List.range' 3 s.delivered.length).map (fun f => (f, (f - 1) % 3, f - 1, f * i, f + 1))
  len_eq : s.done = false → s.delivered.length = s.frame - 3
  done_frame : s.done = true → 4 ≤ s.frame
  pix_ok : ∀ d ∈ s.delivered, d.img.width = sh.w ∧ d.img.height = sh.h ∧
    d.img.stride = 4 * sh.w ∧ d.img.pix.length = 4 * sh.w * sh.h
  uv_key : 1 ≤ s.frame → lookupKey s.uv "time" = some Setter.timeClock ∧
    containsKey s.uv "resolution" = true

/-- The loop body preserves the invariant. -/
theorem animInv_step (sh : ShaderModel) (i : Nat) (c : Nat → Bool) (s : AnimState)
    (inv : AnimInv sh i s) (hdone : s.done = false) :
    AnimInv sh i (animateStep sh i c s) := by
  have hdl : s.draws.length = s.frame := by rw [inv.draws_eq]; simp
  have hL : s.delivered.length = s.frame - 3 := inv.len_eq hdone
  have hti : s.t + i = (s.frame + 1) * i := by rw [inv.t_eq]; ring
  by_cases h1 : s.frame < 3
  · refine ⟨?_, ?_, ?_, ?_, ?_, ?_, ?_, ?_, ?_⟩ <;> simp only [animateStep, if_pos h1]
    · rw [inv.draws_eq, List.range_succ, List.map_append, hti]
      simp
    · have h3 : ¬3 ≤ s.frame := by omega
      rw [inv.reads_eq, List.range_succ, List.filter_append]
      simp [List.filter_cons, h3]
    · exact hti
    · intro _
      simp only [Nat.add_sub_cancel, metaUpdate, if_pos rfl, hti]
      simp
    · exact inv.deliv_eq
    · intro _
      rw [hL]
      omega
    · intro hd
      rw [hdone] at hd
      exact absurd hd (by simp)
    · exact inv.pix_ok
    · exact fun _ => uvTransform_keys s.uv
  · have h3 : 3 ≤ s.frame := Nat.not_lt.1 h1
    have hne : ¬(s.frame - 1) % 3 = s.frame % 3 := by omega
    have hmeta : s.slotMeta ((s.frame - 1) % 3) = (s.frame - 1, s.frame * i) :=
      inv.meta_eq (by omega)
    by_cases h2 : c s.frame
    · refine ⟨?_, ?_, ?_, ?_, ?_, ?_, ?_, ?_, ?_⟩ <;>
        simp only [animateStep, if_neg h1, if_pos h2]
      · rw [inv.draws_eq, List.range_succ, List.map_append, hti]
        simp
      · rw [inv.reads_eq, List.range_succ, List.filter_append]
        simp [List.filter_cons, h3]
      · exact hti
      · intro _
        simp only [Nat.add_sub_cancel, metaUpdate, if_pos rfl, hti]
        simp
      · exact inv.deliv_eq
      · intro hd
        exact absurd hd (by simp)
      · intro _
        omega
      · exact inv.pix_ok
      · exact fun _ => uvTransform_keys s.uv
    · have h3L : 3 + s.delivered.length = s.frame := by omega
      refine ⟨?_, ?_, ?_, ?_, ?_, ?_, ?_, ?_, ?_⟩ <;>
        simp only [animateStep, if_neg h1, if_neg h2]
      · rw [inv.draws_eq, List.range_succ, List.map_append, hti]
        simp
      · rw [inv.reads_eq, List.range_succ, List.filter_append]
        simp [List.filter_cons, h3]
      · exact hti
      · intro _
        simp only [Nat.add_sub_cancel, metaUpdate, if_pos rfl, hti]
        simp
      · simp only [List.map_append, List.length_append, List.length_singleton]
        rw [List.range'_concat, List.map_append, inv.deliv_eq]
        congr 1
        simp only [List.map_cons, List.map_nil, metaUpdate, if_neg hne, hmeta, hdl]
        have h3L' : 3 + 1 * s.delivered.length = s.frame := by omega
        rw [h3L']
      · intro _
        simp only [List.length_append, List.length_singleton]
        omega
      · intro _
        omega
      · intro d hd
        rcases List.mem_append.1 hd with hmem | hmem
        · exact inv.pix_ok d hmem
        · have hd' : d = _ := List.mem_singleton.1 hmem
          rw [hd']
          exact downloadImage_shape sh ((s.frame - 1) % 3) _
      · exact fun _ => uvTransform_keys s.uv

/-- The invariant holds of every reachable state of the loop. -/
theorem animateRun_inv (sh : ShaderModel) (i : Nat) (c : Nat → Bool) (uvo : Option UMap)
    (g : GPUState) (n : Nat) : AnimInv sh i (animateRun sh i c uvo g n) := by
  induction n with
  | zero =>
    refine ⟨?_, ?_, ?_, ?_, ?_, ?_, ?_, ?_, ?_⟩ <;>
      simp [animateRun, animState0]
  | succ n ih =>
    rw [animateRun]
    by_cases hd : (animateRun sh i c uvo g n).done
    · simpa [hd] using ih
    · have hd' : (animateRun sh i c uvo g n).done = false := by simpa using hd
      simpa [hd'] using animInv_step sh i c _ ih hd'

/-- Under a schedule in which cancellation never wins a select, the loop
never returns. -/
theorem animateStep_done_noCancel (sh : ShaderModel) (i : Nat) (s : AnimState) :
    (animateStep sh i (fun _ => false) s).done = s.done := by
  by_cases h1 : s.frame < 3 <;> simp [animateStep, h1]

/-- With the delivery-always-wins schedule the loop is still running after
any number of iterations. -/
theorem animateRun_done_noCancel (sh : ShaderModel) (i : Nat) (uvo : Option UMap)
    (g : GPUState) (n : Nat) :
    (animateRun sh i (fun _ => false) uvo g n).done = false := by
  induction n with
  | zero => simp [animateRun, animState0]
  | succ n ih =>
    rw [animateRun]
    simp only [ih, Bool.false_eq_true, if_false]
    rw [animateStep_done_noCancel]
    exact ih

/-- As long as the loop has not returned, the frame counter equals the
number of iterations run. -/
theorem animateRun_frame_of_not_done (sh : ShaderModel) (i : Nat) (c : Nat → Bool)
    (uvo : Option UMap) (g : GPUState) (n : Nat)
    (h : (animateRun sh i c uvo g n).done = false) :
    (animateRun sh i c uvo g n).frame = n := by
  induction n with
  | zero => simp [animateRun, animState0]
  | succ n ih =>
    rw [animateRun] at h ⊢
    by_cases hd : (animateRun sh i c uvo g n).done
    · simp only [hd, if_true] at h
      exact absurd h (by simp)
    · have hd' : (animateRun sh i c uvo g n).done = false := by simpa using hd
      simp only [hd', Bool.false_eq_true, if_false] at h ⊢
      rw [animateStep_frame, ih hd']

/-- After at least one iteration the frame counter is positive. -/
theorem animateRun_frame_pos (sh : ShaderModel) (i : Nat) (c : Nat → Bool)
    (uvo : Option UMap) (g : GPUState) (n : Nat) (hn : 1 ≤ n) :
    1 ≤ (animateRun sh i c uvo g n).frame := by
  obtain ⟨m, rfl⟩ : ∃ m, n = m + 1 := ⟨n - 1, by omega⟩
  rw [animateRun]
  by_cases hd : (animateRun sh i c uvo g m).done
  · simp only [hd, if_true]
    have := (animateRun_inv sh i c uvo g m).done_frame hd
    omega
  · have hd' : (animateRun sh i c uvo g m).done = false := by simpa using hd
    simp only [hd', Bool.false_eq_true, if_false]
    rw [animateStep_frame]
    omega

/-- Concrete fixture for the counterexample and witness theorems: a 1×1
surface whose program has active uniforms `time` (location 0) and
`resolution` (location 1), and an arbitrary fixed GPU behaviour. -/
def sh0 : ShaderModel :=
  { w := 1, h := 1, uniforms := [("time", 0), ("resolution", 1)],
    render := fun _ => [9, 9, 9, 9] }

/-- Fixture runs of the animation loop on `sh0` with a 1-second
(`10^9` ns) time step and the delivery-always-wins schedule. -/
def runNC (n : Nat) : AnimState :=
  animateRun sh0 1000000000 (fun _ => false) none (newGPUState sh0) n

/-- C1, counterexample.  The claim states that the k-th delivered image was
rendered with `time = (k-1) * time_step`.  At the concrete input (1-second
time step, delivery always winning the select) the first delivered image
(k = 1) was rendered while the elapsed-time accumulator held
3,000,000,000 ns = 3 time steps, not `(1-1) * time_step = 0`: the
accumulator is incremented between registering the `time` closure and the
draw (and the closure reads it by reference at draw time), and the first
delivered image is iteration 2's draw. -/
theorem C1_counterexample :
    (runNC 4).delivered.map (fun d => d.drawTimeNs) = [3000000000] ∧
    ¬(3000000000 : Nat) = (1 - 1) * 1000000000 :=
  ⟨by decide, by decide⟩

/-- C1, amended: the `time` uniform value with which the k-th image
delivered by `Animate` was rendered equals `(k+2) * time_step` (as
nanoseconds of the elapsed-time accumulator read by the `time` closure at
its draw), the image having been drawn at iteration k+1. -/
theorem C1_time_of_kth_delivered (sh : ShaderModel) (i : Nat) (c : Nat → Bool)
    (uvo : Option UMap) (g : GPUState) (n k : Nat) (d : Deliv) (hk : 1 ≤ k)
    (hd : (animateRun sh i c uvo g n).delivered[k - 1]? = some d) :
    d.drawTimeNs = (k + 2) * i ∧ d.frame = k + 2 ∧ d.drawFrame = k + 1 := by
  have inv := animateRun_inv sh i c uvo g n
  have hlen : k - 1 < (animateRun sh i c uvo g n).delivered.length :=
    (List.getElem?_eq_some.1 hd).1
  have h1 : ((animateRun sh i c uvo g n).delivered.map
      (fun d => (d.frame, d.slot, d.drawFrame, d.drawTimeNs, d.drawCount)))[k - 1]? =
      some (d.frame, d.slot, d.drawFrame, d.drawTimeNs, d.drawCount) := by
    rw [List.getElem?_map, hd]
    rfl
  rw [inv.deliv_eq, List.getElem?_map, List.getElem?_range' 3 1 hlen] at h1
  have hk2 : 3 + 1 * (k - 1) = k + 2 := by omega
  rw [hk2] at h1
  simp only [Option.map_some', Option.some.injEq, Prod.mk.injEq] at h1
  obtain ⟨e1, _, e3, e4, _⟩ := h1
  refine ⟨e4.symm, e1.symm, ?_⟩
  omega

/-- C1, witness for the amended theorem at the concrete fixture. -/
theorem C1_witness :
    (⟨3, 2, 2, 3000000000, 4, ⟨1, 1, 4, [9, 9, 9, 9]⟩⟩ : Deliv).drawTimeNs =
      (1 + 2) * 1000000000 ∧
    (⟨3, 2, 2, 3000000000, 4, ⟨1, 1, 4, [9, 9, 9, 9]⟩⟩ : Deliv).frame = 1 + 2 ∧
    (⟨3, 2, 2, 3000000000, 4, ⟨1, 1, 4, [9, 9, 9, 9]⟩⟩ : Deliv).drawFrame = 1 + 1 :=
  C1_time_of_kth_delivered sh0 1000000000 (fun _ => false) none (newGPUState sh0) 4 1
    ⟨3, 2, 2, 3000000000, 4, ⟨1, 1, 4, [9, 9, 9, 9]⟩⟩ (by decide) (by decide)

/-- C2, counterexample.  The claim requires at least N-1 = 2 draw/transfer
requests into other slots between a slot's transfer request and its
readback.  In the concrete run, the readback at iteration 3 reads slot 2,
whose transfer was requested at iteration 2; the only draw issued in
between is iteration 3's single draw into slot 0 — one request, not two. -/
theorem C2_counterexample :
    (runNC 4).reads = [(3, 2)] ∧
    (runNC 4).draws.filter (fun x => decide (2 < x.1) && decide (x.1 ≤ 3)) =
      [(3, 0, 4000000000)] ∧
    ¬2 ≤ ((runNC 4).draws.filter
      (fun x => decide (2 < x.1) && decide (x.1 ≤ 3))).length :=
  ⟨by decide, by decide, by decide⟩

/-- C2, amended: the transfer into the slot read back at iteration f was
requested exactly one iteration earlier (iteration f-1), and exactly one
draw/transfer request — the current iteration's, into a different slot —
is issued between that request and the readback. -/
theorem C2_one_intervening_request (sh : ShaderModel) (i : Nat) (c : Nat → Bool)
    (uvo : Option UMap) (g : GPUState) (n f sl : Nat)
    (hr : (f, sl) ∈ (animateRun sh i c uvo g n).reads) :
    (f - 1, sl, f * i) ∈ (animateRun sh i c uvo g n).draws ∧
    (animateRun sh i c uvo g n).draws.filter
      (fun x => decide (f - 1 < x.1) && decide (x.1 ≤ f)) = [(f, f % 3, (f + 1) * i)] ∧
    ¬f % 3 = sl := by
  have inv := animateRun_inv sh i c uvo g n
  rw [inv.reads_eq] at hr
  rw [List.mem_map] at hr
  obtain ⟨a, ha, hae⟩ := hr
  rw [List.mem_filter, List.mem_range] at ha
  obtain ⟨haf, ha3⟩ := ha
  have ha3' : 3 ≤ a := by simpa using ha3
  obtain ⟨rfl, rfl⟩ : a = f ∧ (a - 1) % 3 = sl := by
    constructor <;> [exact congrArg Prod.fst hae; exact congrArg Prod.snd hae]
  refine ⟨?_, ?_, by omega⟩
  · rw [inv.draws_eq, List.mem_map]
    refine ⟨a - 1, List.mem_range.2 (by omega), ?_⟩
    have : a - 1 + 1 = a := by omega
    rw [this]
  · rw [inv.draws_eq, List.filter_map]
    have hcomp : ((fun x : Nat × Nat × Nat => decide (a - 1 < x.1) && decide (x.1 ≤ a)) ∘
        fun f => (f, f % 3, (f + 1) * i)) =
        fun g => decide (a - 1 < g) && decide (g ≤ a) := rfl
    rw [hcomp, range_filter_between _ a (by omega) haf]
    rfl

/-- C2, witness for the amended theorem at the concrete fixture. -/
theorem C2_witness :
    (2, 2, 3000000000) ∈ (runNC 4).draws ∧
    (runNC 4).draws.filter (fun x => decide (2 < x.1) && decide (x.1 ≤ 3)) =
      [(3, 0, 4000000000)] ∧
    ¬3 % 3 = 2 :=
  C2_one_intervening_request sh0 1000000000 (fun _ => false) none (newGPUState sh0) 4 3 2
    (by decide)

/-- C3, counterexample.  The claim identifies the readback-skipping
iterations as "the first N-1 iterations"; after three full iterations
(frame counter 3) the readback trace is still empty, so the third
iteration — beyond the first N-1 = 2 — also skipped readback. -/
theorem C3_counterexample :
    (runNC 3).frame = 3 ∧ (runNC 3).reads = [] ∧ ¬(3 : Nat) = 2 :=
  ⟨by decide, by decide, by decide⟩

/-- C3, amended: readback is skipped for exactly the first N = 3
iterations (those with frame < 3), one more than the claimed N-1; the
readbacks performed are exactly those at iterations 3 ≤ f < frame, and the
first image is delivered at iteration 3, when 4 draw calls — hence at
least N = 3 — have been issued. -/
theorem C3_priming (sh : ShaderModel) (i : Nat) (c : Nat → Bool)
    (uvo : Option UMap) (g : GPUState) (n : Nat) (d : Deliv)
    (hd : (animateRun sh i c uvo g n).delivered[0]? = some d) :
    (∀ f sl, (f, sl) ∈ (animateRun sh i c uvo g n).reads ↔
      (3 ≤ f ∧ f < (animateRun sh i c uvo g n).frame ∧ sl = (f - 1) % 3)) ∧
    d.frame = 3 ∧ d.drawCount = 4 ∧ 3 ≤ d.drawCount := by
  have inv := animateRun_inv sh i c uvo g n
  have hmain := C1_time_of_kth_delivered sh i c uvo g n 1 d (by omega) (by simpa using hd)
  constructor
  · intro f sl
    rw [inv.reads_eq]
    constructor
    · intro hm
      rw [List.mem_map] at hm
      obtain ⟨a, ha, hae⟩ := hm
      rw [List.mem_filter, List.mem_range] at ha
      obtain ⟨haf, ha3⟩ := ha
      have ha3' : 3 ≤ a := by simpa using ha3
      obtain ⟨rfl, rfl⟩ : a = f ∧ (a - 1) % 3 = sl := by
        constructor <;> [exact congrArg Prod.fst hae; exact congrArg Prod.snd hae]
      exact ⟨ha3', haf, rfl⟩
    · rintro ⟨h3, hf, rfl⟩
      rw [List.mem_map]
      exact ⟨f, List.mem_filter.2 ⟨List.mem_range.2 hf, by simpa using h3⟩, rfl⟩
  · -- the k = 1 instance of the delivery characterisation pins the first
    -- delivery to iteration 3; its drawCount ghost, read off the invariant.
    have hlen : 0 < (animateRun sh i c uvo g n).delivered.length :=
      (List.getElem?_eq_some.1 hd).1
    have h1 : ((animateRun sh i c uvo g n).delivered.map
        (fun d => (d.frame, d.slot, d.drawFrame, d.drawTimeNs, d.drawCount)))[0]? =
        some (d.frame, d.slot, d.drawFrame, d.drawTimeNs, d.drawCount) := by
      rw [List.getElem?_map, hd]
      rfl
    rw [inv.deliv_eq, List.getElem?_map, List.getElem?_range' 3 1 hlen] at h1
    simp only [Option.map_some', Option.some.injEq, Prod.mk.injEq] at h1
    obtain ⟨e1, _, _, _, e5⟩ := h1
    refine ⟨by omega, by omega, by omega⟩

/-- C3, witness for the amended theorem at the concrete fixture. -/
theorem C3_witness :
    ((3, 2) ∈ (runNC 4).reads ↔
      (3 ≤ 3 ∧ 3 < (runNC 4).frame ∧ 2 = (3 - 1) % 3)) ∧
    (⟨3, 2, 2, 3000000000, 4, ⟨1, 1, 4, [9, 9, 9, 9]⟩⟩ : Deliv).frame = 3 ∧
    (⟨3, 2, 2, 3000000000, 4, ⟨1, 1, 4, [9, 9, 9, 9]⟩⟩ : Deliv).drawCount = 4 ∧
    3 ≤ (⟨3, 2, 2, 3000000000, 4, ⟨1, 1, 4, [9, 9, 9, 9]⟩⟩ : Deliv).drawCount :=
  ⟨((C3_priming sh0 1000000000 (fun _ => false) none (newGPUState sh0) 4
      ⟨3, 2, 2, 3000000000, 4, ⟨1, 1, 4, [9, 9, 9, 9]⟩⟩ (by decide)).1 3 2),
    ((C3_priming sh0 1000000000 (fun _ => false) none (newGPUState sh0) 4
      ⟨3, 2, 2, 3000000000, 4, ⟨1, 1, 4, [9, 9, 9, 9]⟩⟩ (by decide)).2)⟩

/-- C4: every draw of `Animate` targets ring slot `frame mod 3` (the clock
accumulator read at that draw being `(frame+1)·Δ`), and every readback at
iteration f — which only happens from iteration 3 on — targets slot
`(f-1) mod 3`, into which a transfer was issued exactly one iteration
earlier and none later up to the readback. -/
theorem C4_slot_selection (sh : ShaderModel) (i : Nat) (c : Nat → Bool)
    (uvo : Option UMap) (g : GPUState) (n f sl tv f' sl' : Nat)
    (hdr : (f, sl, tv) ∈ (animateRun sh i c uvo g n).draws)
    (hrd : (f', sl') ∈ (animateRun sh i c uvo g n).reads) :
    (sl = f % 3 ∧ tv = (f + 1) * i) ∧
    (3 ≤ f' ∧ sl' = (f' - 1) % 3 ∧
      (f' - 1, sl', f' * i) ∈ (animateRun sh i c uvo g n).draws ∧
      ∀ a b tb, (a, b, tb) ∈ (animateRun sh i c uvo g n).draws →
        b = sl' → f' - 1 < a → ¬a ≤ f') := by
  have inv := animateRun_inv sh i c uvo g n
  have hdraw : ∀ a b tb, (a, b, tb) ∈ (animateRun sh i c uvo g n).draws →
      b = a % 3 ∧ tb = (a + 1) * i := by
    intro a b tb hm
    rw [inv.draws_eq, List.mem_map] at hm
    obtain ⟨x, _, hxe⟩ := hm
    obtain ⟨rfl, h2⟩ : x = a ∧ (x % 3, (x + 1) * i) = (b, tb) := by
      constructor
      · exact congrArg Prod.fst hxe
      · exact congrArg Prod.snd hxe
    exact ⟨(congrArg Prod.fst h2).symm, (congrArg Prod.snd h2).symm⟩
  have hread : 3 ≤ f' ∧ sl' = (f' - 1) % 3 ∧ f' < (animateRun sh i c uvo g n).frame := by
    rw [inv.reads_eq, List.mem_map] at hrd
    obtain ⟨a, ha, hae⟩ := hrd
    rw [List.mem_filter, List.mem_range] at ha
    obtain ⟨haf, ha3⟩ := ha
    obtain ⟨rfl, rfl⟩ : a = f' ∧ (a - 1) % 3 = sl' := by
      constructor <;> [exact congrArg Prod.fst hae; exact congrArg Prod.snd hae]
    exact ⟨by simpa using ha3, rfl, haf⟩
  obtain ⟨h3, hsl, hff⟩ := hread
  refine ⟨hdraw f sl tv hdr, h3, hsl, ?_, ?_⟩
  · rw [inv.draws_eq, List.mem_map]
    refine ⟨f' - 1, List.mem_range.2 (by omega), ?_⟩
    have e1 : f' - 1 + 1 = f' := by omega
    rw [e1, hsl]
  · intro a b tb hm hb ha1 ha2
    obtain ⟨hb', _⟩ := hdraw a b tb hm
    have : a = f' := by omega
    subst this
    rw [hsl] at hb
    rw [hb'] at hb
    omega

/-- C4, witness at the concrete fixture: iteration 3's draw targets slot
3 mod 3 = 0, and the readback at iteration 3 targets slot 2 = (3-1) mod 3,
drawn exactly one iteration earlier. -/
theorem C4_witness :
    ((0 : Nat) = 3 % 3 ∧ (4000000000 : Nat) = (3 + 1) * 1000000000) ∧
    (3 ≤ 3 ∧ (2 : Nat) = (3 - 1) % 3 ∧
      (3 - 1, 2, 3 * 1000000000) ∈ (runNC 4).draws ∧
      ∀ a b tb, (a, b, tb) ∈ (runNC 4).draws → b = 2 → 3 - 1 < a → ¬a ≤ 3) :=
  C4_slot_selection sh0 1000000000 (fun _ => false) none (newGPUState sh0) 4
    3 0 4000000000 3 2 (by decide) (by decide)

/-- C5: when the cancel case of the select wins the race at the first
delivery point (iteration 3) — the oracle reading of "cancellation fires
before any image has been delivered" — the loop returns having written
nothing to the output channel, dropping the pending image, and no draw
beyond iteration 3 is ever issued: the state is frozen from run length 4
on.  During the priming iterations (frame < 3) no delivery point is
reached, so the schedule is never consulted — cancellation is checked only
at the delivery point.  And the race has no priority: under the schedule in
which delivery wins the same select, an image is delivered. -/
theorem C5_cancel_before_first_delivery (sh : ShaderModel) (i : Nat) (c : Nat → Bool)
    (uvo : Option UMap) (g : GPUState) (hc : c 3 = true) :
    (∀ n, (animateRun sh i c uvo g n).delivered = [] ∧
      ∀ x ∈ (animateRun sh i c uvo g n).draws, x.1 ≤ 3) ∧
    (∀ n, 4 ≤ n → animateRun sh i c uvo g n = animateRun sh i c uvo g 4) ∧
    (∀ s : AnimState, s.frame < 3 → (animateStep sh i c s).done = s.done) ∧
    (animateRun sh i (fun _ => false) uvo g 4).delivered.length = 1 := by
  have key : ∀ n, (animateRun sh i c uvo g n).delivered = [] ∧
      (animateRun sh i c uvo g n).frame ≤ 4 ∧
      ((animateRun sh i c uvo g n).done = false → (animateRun sh i c uvo g n).frame = n) ∧
      (4 ≤ (animateRun sh i c uvo g n).frame → (animateRun sh i c uvo g n).done = true) := by
    intro n
    induction n with
    | zero =>
      refine ⟨by simp [animateRun, animState0], by simp [animateRun, animState0],
        fun _ => by simp [animateRun, animState0], fun h4 => ?_⟩
      simp [animateRun, animState0] at h4
    | succ n ih =>
      obtain ⟨ihdel, ihfr, ihfe, ihdn⟩ := ih
      rw [animateRun]
      by_cases hd : (animateRun sh i c uvo g n).done
      · simp only [hd, if_true]
        exact ⟨ihdel, ihfr, fun h => absurd h (by simp), fun _ => trivial⟩
      · have hd' : (animateRun sh i c uvo g n).done = false := by simpa using hd
        simp only [hd', Bool.false_eq_true, if_false]
        have hfn : (animateRun sh i c uvo g n).frame = n := ihfe hd'
        by_cases h1 : (animateRun sh i c uvo g n).frame < 3
        · obtain ⟨hdel, hdn⟩ := animateStep_delivered_of_prime sh i c _ h1
          refine ⟨?_, ?_, ?_, ?_⟩
          · rw [hdel]
            exact ihdel
          · rw [animateStep_frame]
            omega
          · intro _
            rw [animateStep_frame]
            omega
          · intro h4
            rw [animateStep_frame] at h4
            exact absurd h1 (by omega)
        · have hf3 : (animateRun sh i c uvo g n).frame = 3 := by
            rcases Nat.lt_or_ge (animateRun sh i c uvo g n).frame 4 with h | h
            · omega
            · exact absurd (ihdn h) (by simp [hd'])
          have hcc : c (animateRun sh i c uvo g n).frame = true := by rw [hf3]; exact hc
          obtain ⟨hdel, hdn⟩ := animateStep_delivered_of_cancel sh i c _ h1 hcc
          refine ⟨?_, ?_, ?_, ?_⟩
          · rw [hdel]
            exact ihdel
          · rw [animateStep_frame]
            omega
          · intro hcontra
            rw [hdn] at hcontra
            exact absurd hcontra (by simp)
          · intro _
            exact hdn
  have hdone4 : (animateRun sh i c uvo g 4).done = true := by
    by_cases hd : (animateRun sh i c uvo g 4).done
    · exact hd
    · have hd' : (animateRun sh i c uvo g 4).done = false := by simpa using hd
      have := (key 4).2.2.1 hd'
      exact (key 4).2.2.2 (by omega)
  refine ⟨?_, ?_, ?_, ?_⟩
  · intro n
    refine ⟨(key n).1, ?_⟩
    intro x hx
    have inv := animateRun_inv sh i c uvo g n
    rw [inv.draws_eq, List.mem_map] at hx
    obtain ⟨a, ha, hae⟩ := hx
    rw [List.mem_range] at ha
    have : x.1 = a := by rw [← hae]
    have := (key n).2.1
    omega
  · intro n hn
    obtain ⟨m, rfl⟩ : ∃ m, n = 4 + m := ⟨n - 4, by omega⟩
    clear hn
    induction m with
    | zero => rfl
    | succ m ihm =>
      have he : 4 + (m + 1) = (4 + m) + 1 := by omega
      rw [he, animateRun]
      simp [ihm, hdone4]
  · intro s hs
    exact (animateStep_delivered_of_prime sh i c s hs).2
  · have hdnf := animateRun_done_noCancel sh i uvo g 4
    have hfr := animateRun_frame_of_not_done sh i (fun _ => false) uvo g 4 hdnf
    have inv := animateRun_inv sh i (fun _ => false) uvo g 4
    have := inv.len_eq hdnf
    omega

/-- C5, witness: the schedule cancelling at iteration 3, applied at the
concrete fixture. -/
theorem C5_witness :
    (animateRun sh0 1000000000 (fun n => decide (n = 3)) none (newGPUState sh0) 6).delivered
      = [] :=
  ((C5_cancel_before_first_delivery sh0 1000000000 (fun n => decide (n = 3)) none
    (newGPUState sh0) (by decide)).1 6).1

/-- C6: each `Animate` iteration rewrites the uniform map with
`uvTransform`, under which the `time` binding is unconditionally the
animation-clock closure — regardless of any caller-provided binding under
that name — while a caller-supplied `resolution` binding survives
untouched and the default is injected only when none is present. -/
theorem C6_time_overwritten_resolution_defaulted (sh : ShaderModel) (i : Nat)
    (c : Nat → Bool) (s : AnimState) (uv : UMap) :
    (animateStep sh i c s).uv = uvTransform s.uv ∧
    lookupKey (uvTransform uv) "time" = some Setter.timeClock ∧
    lookupKey (uvTransform uv) "resolution" =
      (if containsKey uv "resolution" then lookupKey uv "resolution"
       else some Setter.resolutionDefault) :=
  ⟨animateStep_uv sh i c s, (uvTransform_keys uv).1, uvTransform_resolution uv⟩

/-- C7: a uniform binding whose name does not resolve in the program's
active-uniform table is silently ignored by `drawImage`: no error exists in
the model (the function is total), and the entire resulting GPU state —
uniform pushes, rendered framebuffer and transfer — is identical to the
draw with that binding omitted, wherever in the map it sits. -/
theorem C7_unknown_uniform_ignored (sh : ShaderModel) (t idx : Nat) (uv1 uv2 : UMap)
    (name : String) (st : Setter) (g : GPUState)
    (h : lookupUniform sh.uniforms name = none) :
    drawImage sh t idx (uv1 ++ (name, st) :: uv2) g = drawImage sh t idx (uv1 ++ uv2) g := by
  unfold drawImage
  rw [List.foldl_append, List.foldl_append, List.foldl_cons]
  simp only [h]

/-- C7, witness: an extra binding under the unknown name `foo` leaves the
draw's result unchanged at the concrete fixture. -/
theorem C7_witness :
    drawImage sh0 0 0 [("foo", Setter.user (fun loc g => setGL g loc (.f1 5)))]
        (newGPUState sh0) =
      drawImage sh0 0 0 [] (newGPUState sh0) :=
  C7_unknown_uniform_ignored sh0 0 0 [] [] "foo"
    (Setter.user (fun loc g => setGL g loc (.f1 5))) (newGPUState sh0) (by decide)

/-- C8: `Image` injects the default `resolution` setter exactly when the
caller (possibly passing nil) supplied none — the default pushing
`(w, h)` as floats — draws into ring slot 0, whose PBO afterwards holds
the transferred framebuffer while the other slots are untouched, and
immediately reads slot 0 back into the image it returns synchronously. -/
theorem C8_image_single_shot (sh : ShaderModel) (uvo : Option UMap) (g : GPUState)
    (hp : g.pbos.length = 3) :
    (Image sh uvo g).2.1 =
      (if containsKey (uvo.getD []) "resolution" then uvo.getD []
       else setKey (uvo.getD []) "resolution" Setter.resolutionDefault) ∧
    (Image sh uvo g).2.2 = drawImage sh 0 0 (Image sh uvo g).2.1 g ∧
    (Image sh uvo g).2.2.pbos.getD 0 [] = sh.render (Image sh uvo g).2.2.glUniforms ∧
    (∀ j, ¬j = 0 → (Image sh uvo g).2.2.pbos.getD j [] = g.pbos.getD j []) ∧
    (Image sh uvo g).1 = downloadImage sh 0 (Image sh uvo g).2.2 ∧
    containsKey (Image sh uvo g).2.1 "resolution" = true ∧
    (∀ loc gs t, applySetter sh.w sh.h t Setter.resolutionDefault loc gs =
      setGL gs loc (GLValue.f2 (sh.w : ℚ) (sh.h : ℚ))) := by
  refine ⟨rfl, rfl, ?_, ?_, rfl, ?_, fun loc gs t => rfl⟩
  · show (drawImage sh 0 0 _ g).pbos.getD 0 [] = _
    unfold drawImage
    exact getD_set_self _ 0 _ [] (by omega)
  · intro j hj
    show (drawImage sh 0 0 _ g).pbos.getD j [] = _
    unfold drawImage
    exact getD_set_ne _ 0 j _ [] (Ne.symm hj)
  · show containsKey (if containsKey (uvo.getD []) "resolution" then uvo.getD []
      else setKey (uvo.getD []) "resolution" Setter.resolutionDefault) "resolution" = true
    by_cases hres : containsKey (uvo.getD []) "resolution"
    · simpa [hres] using hres
    · simp only [hres, Bool.false_eq_true, if_false]
      exact containsKey_setKey_self _ "resolution" _

/-- C8, witness at the concrete fixture with a nil uniform map. -/
theorem C8_witness :
    containsKey (Image sh0 none (newGPUState sh0)).2.1 "resolution" = true :=
  (C8_image_single_shot sh0 none (newGPUState sh0) (by decide)).2.2.2.2.2.1

/-- C9: for a surface with positive width and height, the image returned
by `Image` (the single-shot `render_once`) and every image delivered by
`Animate` carry a pixel buffer of exactly `width*height*4` bytes with
stride `4*width` (row-major RGBA) at the configured dimensions. -/
theorem C9_pixel_buffer_size (sh : ShaderModel) (uvo : Option UMap) (g : GPUState)
    (i : Nat) (c : Nat → Bool) (n : Nat) (hw : 0 < sh.w) (hh : 0 < sh.h) :
    ((Image sh uvo g).1.pix.length = sh.w * sh.h * 4 ∧
      (Image sh uvo g).1.width = sh.w ∧ (Image sh uvo g).1.height = sh.h ∧
      (Image sh uvo g).1.stride = 4 * sh.w) ∧
    (∀ d ∈ (animateRun sh i c uvo g n).delivered,
      d.img.pix.length = sh.w * sh.h * 4 ∧ d.img.stride = 4 * sh.w ∧
      d.img.width = sh.w ∧ d.img.height = sh.h) := by
  have hcomm : 4 * sh.w * sh.h = sh.w * sh.h * 4 := by ring
  constructor
  · obtain ⟨s1, s2, s3, s4⟩ := downloadImage_shape sh 0 (Image sh uvo g).2.2
    exact ⟨by rw [← hcomm]; exact s4, s1, s2, s3⟩
  · intro d hd
    obtain ⟨p1, p2, p3, p4⟩ := (animateRun_inv sh i c uvo g n).pix_ok d hd
    exact ⟨by rw [← hcomm]; exact p4, p3, p1, p2⟩

/-- C9, witness at the 1×1 fixture. -/
theorem C9_witness :
    ((Image sh0 none (newGPUState sh0)).1.pix.length = sh0.w * sh0.h * 4 ∧
      (Image sh0 none (newGPUState sh0)).1.width = sh0.w ∧
      (Image sh0 none (newGPUState sh0)).1.height = sh0.h ∧
      (Image sh0 none (newGPUState sh0)).1.stride = 4 * sh0.w) ∧
    (∀ d ∈ (runNC 4).delivered,
      d.img.pix.length = sh0.w * sh0.h * 4 ∧ d.img.stride = 4 * sh0.w ∧
      d.img.width = sh0.w ∧ d.img.height = sh0.h) :=
  C9_pixel_buffer_size sh0 none (newGPUState sh0) 1000000000 (fun _ => false) 4
    (by decide) (by decide)

/-- C10: passing a non-nil map, the map visible to the caller after the
call (Go maps being reference values, the same object) gained a
`resolution` entry from `Image` when absent — and kept it when present —
while after any positive number of `Animate` iterations the caller's map
holds the clock closure under `time` and some binding under
`resolution`. -/
theorem C10_map_mutated_in_place (sh : ShaderModel) (m : UMap) (g : GPUState)
    (i : Nat) (c : Nat → Bool) (g' : GPUState) (n : Nat) (hn : 1 ≤ n) :
    containsKey (Image sh (some m) g).2.1 "resolution" = true ∧
    (containsKey m "resolution" = true → (Image sh (some m) g).2.1 = m) ∧
    (containsKey m "resolution" = false →
      (Image sh (some m) g).2.1 = setKey m "resolution" Setter.resolutionDefault) ∧
    lookupKey (animateRun sh i c (some m) g' n).uv "time" = some Setter.timeClock ∧
    containsKey (animateRun sh i c (some m) g' n).uv "resolution" = true := by
  have hfr := animateRun_frame_pos sh i c (some m) g' n hn
  have huv := (animateRun_inv sh i c (some m) g' n).uv_key hfr
  refine ⟨?_, ?_, ?_, huv.1, huv.2⟩
  · show containsKey (if containsKey m "resolution" then m
      else setKey m "resolution" Setter.resolutionDefault) "resolution" = true
    by_cases hres : containsKey m "resolution"
    · simpa [hres] using hres
    · simp only [hres, Bool.false_eq_true, if_false]
      exact containsKey_setKey_self _ "resolution" _
  · intro hres
    show (if containsKey m "resolution" then m
      else setKey m "resolution" Setter.resolutionDefault) = m
    simp [hres]
  · intro hres
    show (if containsKey m "resolution" then m
      else setKey m "resolution" Setter.resolutionDefault) =
      setKey m "resolution" Setter.resolutionDefault
    simp [hres]

/-- C10, witness: a non-nil map binding only `foo`, at the concrete
fixture. -/
theorem C10_witness :
    containsKey
      (Image sh0 (some [("foo", Setter.user (fun _ g => g))]) (newGPUState sh0)).2.1
      "resolution" = true ∧
    lookupKey (animateRun sh0 1000000000 (fun _ => false)
      (some [("foo", Setter.user (fun _ g => g))]) (newGPUState sh0) 2).uv "time" =
      some Setter.timeClock := by
  have h := C10_map_mutated_in_place sh0 [("foo", Setter.user (fun _ g => g))]
    (newGPUState sh0) 1000000000 (fun _ => false) (newGPUState sh0) 2 (by decide)
  exact ⟨h.1, h.2.2.2.1⟩

end Glsl
